import Mathlib

/-!
Shallow embedding of the Plants-vs-Zombies game server (`src/index.js`).

Conventions:
* JS numbers carrying positions and speeds become `Rat` (all literals in the
  source are exactly representable); timestamps (ms), health, sun and wave
  points become `Int`.
* `Math.floor` becomes `Rat.floor` (true floor, matching JS).
* Mutation of an element found by `Array.prototype.find` is modelled by
  `findIdxP` (index of the first match) followed by `modifyIdx`.
* `socket.emit` / `io.to(..).emit` are not state, so command handlers return
  an outcome tag recording which source branch was taken; `plantErrorEmitted` /
  `zombieErrorEmitted` record which branches call `socket.emit('error', ...)`.
-/

namespace PvZ

/-! ### Constants (`WAVE_SYSTEM`, `PLANT_TYPES`, `ZOMBIE_TYPES`, `AMBULANCE`) -/

def GAME_UPDATE_INTERVAL : Int := 50

def POINTS_PER_WAVE : Int := 100
def POINTS_INCREMENT : Int := 50
def WAVE_DURATION : Int := 60000
def BREAK_DURATION : Int := 20000
def TOTAL_WAVES : Int := 5

structure PlantType where
  cost : Int
  health : Int
  damage : Int
  shootInterval : Int
  sunGenerationInterval : Int
  sunAmount : Int
deriving DecidableEq, Repr

/-- `PLANT_TYPES.SUNFLOWER` (fields absent in the source are zero). -/
def SUNFLOWER : PlantType := ⟨50, 100, 0, 0, 20000, 25⟩

/-- `PLANT_TYPES.PEASHOOTER`. -/
def PEASHOOTER : PlantType := ⟨100, 100, 20, 2000, 0, 0⟩

/-- The string-keyed catalog `PLANT_TYPES[key]`; `none` models JS `undefined`. -/
def PLANT_TYPES : String → Option PlantType
  | "SUNFLOWER" => some SUNFLOWER
  | "PEASHOOTER" => some PEASHOOTER
  | _ => none

structure ZombieType where
  cost : Int
  health : Int
  damage : Int
  speed : Rat
  attackInterval : Int
deriving DecidableEq, Repr

def BASIC : ZombieType := ⟨25, 100, 10, 1/2, 1000⟩
def CONE : ZombieType := ⟨50, 200, 10, 9/20, 1000⟩
def BUCKET : ZombieType := ⟨75, 300, 10, 2/5, 1000⟩
def DOOR : ZombieType := ⟨100, 400, 10, 7/20, 1200⟩
def FOOTBALL : ZombieType := ⟨175, 200, 15, 4/5, 800⟩

/-- The string-keyed catalog `ZOMBIE_TYPES[key]`. -/
def ZOMBIE_TYPES : String → Option ZombieType
  | "BASIC" => some BASIC
  | "CONE" => some CONE
  | "BUCKET" => some BUCKET
  | "DOOR" => some DOOR
  | "FOOTBALL" => some FOOTBALL
  | _ => none

def AMBULANCE_speed : Rat := 2

/-! ### Mutable session state (`class Game`) -/

structure Plant where
  type : String
  x : Rat
  y : Rat
  health : Int
  lastShot : Int
  lastSunGeneration : Int
deriving DecidableEq, Repr

structure Zombie where
  type : String
  x : Rat
  y : Rat
  health : Int
  speed : Rat
  lastAttack : Int
deriving DecidableEq, Repr

structure Ambulance where
  row : Int
  x : Rat
  active : Bool
  used : Bool
  state : String
deriving DecidableEq, Repr

structure Score where
  plants : Int
  zombies : Int
deriving DecidableEq, Repr

structure Game where
  plants : List Plant
  zombies : List Zombie
  sun : Int
  players : List String
  status : String
  currentWave : Int
  wavePoints : Int
  waveStartTime : Int
  waveStatus : String
  lastUpdate : Int
  ambulances : List Ambulance
  score : Score
deriving DecidableEq, Repr

/-- `initAmbulances()`: one idle ambulance per row, parked at `x = -0.5`. -/
def initAmbulances : List Ambulance :=
  (List.range 5).map fun row => ⟨(row : Int), -(1/2 : Rat), false, false, "idle"⟩

/-- `new Game()` (the constructor); `now` stands for `Date.now()`. -/
def mkGame (now : Int) : Game :=
  ⟨[], [], 50, [], "waiting", 0, POINTS_PER_WAVE, 0, "break", now, initAmbulances, ⟨0, 0⟩⟩

/-! ### List helpers modelling in-place mutation of a found element -/

/-- Index of the first element satisfying `p` (models `Array.prototype.find`,
whose result the source then mutates in place). -/
def findIdxP {α : Type} (p : α → Bool) : List α → Option Nat
  | [] => none
  | x :: xs => if p x then some 0 else (findIdxP p xs).map (· + 1)

/-- Replace the element at index `i` by `f` of it (in-place mutation). -/
def modifyIdx {α : Type} (f : α → α) : List α → Nat → List α
  | [], _ => []
  | x :: xs, 0 => f x :: xs
  | x :: xs, n + 1 => x :: modifyIdx f xs n

/-! ### Command handlers (`socket.on('placePlant')`, `socket.on('placeZombie')`)

Each returns the branch taken together with the updated game.  The first two
tags (`invalidState`, `unknownKind`) are silent `return`s in the source; the
next ones correspond to `socket.emit('error', ...)` calls; `ok` broadcasts a
`gameUpdate` snapshot. -/

inductive PlantOutcome
  | invalidState | unknownKind | invalidPosition | spotTaken | notEnoughSun | ok
deriving DecidableEq, Repr

/-- Which `placePlant` branches emit `socket.emit('error', ...)`. -/
def plantErrorEmitted : PlantOutcome → Bool
  | .invalidPosition => true
  | .spotTaken => true
  | .notEnoughSun => true
  | _ => false

/-- `game.plants.some(plant => Math.floor(plant.x) === Math.floor(data.x) && ...)`. -/
def isSpotTaken (plants : List Plant) (x y : Rat) : Bool :=
  plants.any fun plant =>
    plant.x.floor == x.floor && plant.y.floor == y.floor

/-- The `placePlant` handler; `now` stands for `Date.now()`. -/
def placePlant (game : Game) (type : String) (x y : Rat) (now : Int) :
    PlantOutcome × Game :=
  if game.status ≠ "playing" then (.invalidState, game)
  else match PLANT_TYPES type with
    | none => (.unknownKind, game)
    | some plantType =>
      if x < 0 ∨ x ≥ 9 ∨ y < 0 ∨ y ≥ 5 then (.invalidPosition, game)
      else if isSpotTaken game.plants x y then (.spotTaken, game)
      else if game.sun < plantType.cost then (.notEnoughSun, game)
      else
        (.ok, { game with
                  sun := game.sun - plantType.cost,
                  plants := game.plants ++ [⟨type, x, y, plantType.health, now, now⟩] })

inductive ZombieOutcome
  | invalidState | unknownKind | invalidPosition | notEnoughPoints | ok
deriving DecidableEq, Repr

/-- Which `placeZombie` branches emit `socket.emit('error', ...)`. -/
def zombieErrorEmitted : ZombieOutcome → Bool
  | .invalidPosition => true
  | .notEnoughPoints => true
  | _ => false

/-- `data.type || 'BASIC'`: JS falls back to `'BASIC'` when `data.type` is
absent (`none`) or falsy (the empty string). -/
def zombieKey : Option String → String
  | none => "BASIC"
  | some s => if s = "" then "BASIC" else s

/-- The `placeZombie` handler; `now` stands for `Date.now()`. -/
def placeZombie (game : Game) (type : Option String) (y : Rat) (now : Int) :
    ZombieOutcome × Game :=
  if game.status ≠ "playing" ∨ game.waveStatus ≠ "active" then (.invalidState, game)
  else match ZOMBIE_TYPES (zombieKey type) with
    | none => (.unknownKind, game)
    | some zombieType =>
      if y < 0 ∨ y ≥ 5 then (.invalidPosition, game)
      else if zombieType.cost > game.wavePoints then (.notEnoughPoints, game)
      else
        (.ok, { game with
                  wavePoints := game.wavePoints - zombieType.cost,
                  zombies := game.zombies ++
                    [⟨zombieKey type, 8, y, zombieType.health, zombieType.speed, now⟩] })

/-! ### The simulation tick (`updateGameState`) and game loop (`startGameLoop`) -/

/-- `endGame(game, winner, gameId)`: marks the session ended and bumps the
winning side's score counter (the broadcast is not state). -/
def endGame (game : Game) (winner : String) : Game :=
  { game with
      status := "ended",
      score := if winner = "plants" then ⟨game.score.plants + 1, game.score.zombies⟩
               else ⟨game.score.plants, game.score.zombies + 1⟩ }

/-- The wave-status block at the top of `updateGameState`.  The returned `Bool`
is `true` when the source hits the `return` after `endGame(game, 'plants', ..)`,
which aborts the rest of that tick. -/
def waveStep (game : Game) (now : Int) : Game × Bool :=
  if game.waveStatus = "active" then
    if now - game.waveStartTime ≥ WAVE_DURATION then
      ({ game with waveStatus := "break", waveStartTime := now }, false)
    else (game, false)
  else if game.waveStatus = "break" then
    if now - game.waveStartTime ≥ BREAK_DURATION then
      let g := { game with currentWave := game.currentWave + 1 }
      if g.currentWave ≥ TOTAL_WAVES ∧ g.zombies.length = 0 then
        (endGame g "plants", true)
      else
        ({ g with
             wavePoints := POINTS_PER_WAVE + g.currentWave * POINTS_INCREMENT,
             waveStatus := "active",
             waveStartTime := now }, false)
    else (game, false)
  else (game, false)

/-- One iteration of the `game.ambulances.forEach` body: an active, unused
ambulance advances, zeroes the health of zombies in its row within `|Δx| < 1`
of its new position, and becomes `used` once past `x > 9`. -/
def ambStep (delta : Rat) (zombies : List Zombie) (a : Ambulance) :
    Ambulance × List Zombie :=
  if a.active ∧ ¬a.used then
    let ax := a.x + AMBULANCE_speed * delta
    let zombies := zombies.map fun z =>
      if z.y.floor = a.row ∧ |z.x - ax| < 1 then { z with health := 0 } else z
    let a2 : Ambulance :=
      if ax > 9 then { a with x := ax, used := true, state := "used" }
      else { a with x := ax }
    (a2, zombies)
  else (a, zombies)

/-- The full `game.ambulances.forEach(...)` loop, threading the zombie list. -/
def ambulancePhase (delta : Rat) :
    List Ambulance → List Zombie → List Ambulance × List Zombie
  | [], zombies => ([], zombies)
  | a :: rest, zombies =>
    let s := ambStep delta zombies a
    let r := ambulancePhase delta rest s.2
    (s.1 :: r.1, r.2)

/-- The per-zombie loop reads and writes these game fields. -/
structure ZAcc where
  plants : List Plant
  ambulances : List Ambulance
  status : String
  score : Score
deriving DecidableEq, Repr

/-- The `game.plants.find(...)` collision predicate: same floored row, raw
(unfloored) x within 0.5. -/
def collides (z : Zombie) (plant : Plant) : Bool :=
  decide (|z.x - plant.x| < 1/2) && plant.y.floor == z.y.floor

/-- Stand-in for `ZOMBIE_TYPES[zombie.type]` when the key is unknown; the
source would throw on `zombieType.attackInterval` there, which no reachable
state does (every stored zombie carries a catalog key). -/
def defaultZombieType : ZombieType := ⟨0, 0, 0, 0, 0⟩

/-- One iteration of the `game.zombies.forEach` body.  A zombie engaged with a
plant attacks it when its interval has elapsed and does not move; otherwise it
moves left, and on crossing `x ≤ 0` either activates the first unused ambulance
of its floored row or triggers `endGame(game, 'zombies', ..)`.  Note the
source's `return` there only exits the `forEach` callback, so later zombies in
the same tick are still processed. -/
def zombieStep (now : Int) (delta : Rat) (acc : ZAcc) (z : Zombie) :
    ZAcc × Zombie :=
  let zombieType := (ZOMBIE_TYPES z.type).getD defaultZombieType
  match findIdxP (collides z) acc.plants with
  | some i =>
    if now - z.lastAttack ≥ zombieType.attackInterval then
      let bite := fun p : Plant => { p with health := p.health - zombieType.damage }
      ({ acc with plants := modifyIdx bite acc.plants i }, { z with lastAttack := now })
    else (acc, z)
  | none =>
    let z := { z with x := z.x - z.speed * delta }
    if z.x ≤ 0 then
      match findIdxP (fun a => a.row == z.y.floor && !a.used) acc.ambulances with
      | some j =>
        let turnOn := fun a : Ambulance => { a with active := true }
        ({ acc with ambulances := modifyIdx turnOn acc.ambulances j }, z)
      | none => (⟨acc.plants, acc.ambulances, "ended",
                  ⟨acc.score.plants, acc.score.zombies + 1⟩⟩, z)
    else (acc, z)

/-- The full `game.zombies.forEach(...)` loop. -/
def zombiePhase (now : Int) (delta : Rat) (acc : ZAcc) :
    List Zombie → ZAcc × List Zombie
  | [] => (acc, [])
  | z :: rest =>
    let s := zombieStep now delta acc z
    let r := zombiePhase now delta s.1 rest
    (r.1, s.2 :: r.2)

/-- Eligibility for peashooter fire (`zombiesInRow` filter): same floored row,
raw x strictly ahead of the plant's raw x. -/
def eligTarget (px : Rat) (pyFloor : Int) (z : Zombie) : Bool :=
  z.y.floor == pyFloor && decide (z.x > px)

/-- Index (in the untouched zombie list) and x of the zombie the source's
`zombiesInRow.reduce((closest, current) => current.x < closest.x ? ...)` would
pick: the leftmost-in-array-order zombie attaining the strict minimum x among
eligible ones, because `<` keeps the earlier element on ties. -/
def pickTarget (px : Rat) (pyFloor : Int) : List Zombie → Option (Nat × Rat)
  | [] => none
  | z :: rest =>
    let tail := (pickTarget px pyFloor rest).map fun p => (p.1 + 1, p.2)
    if eligTarget px pyFloor z then
      match tail with
      | none => some (0, z.x)
      | some (j, xj) => if xj < z.x then some (j, xj) else some (0, z.x)
    else tail

/-- One iteration of the `game.plants.forEach` body, threading `(sun, zombies)`.
A sunflower whose interval elapsed credits sun and resets its timer; a
peashooter whose interval elapsed damages its picked target and resets its
timer, or does nothing when no eligible zombie exists. -/
def plantStep (now : Int) (acc : Int × List Zombie) (plant : Plant) :
    (Int × List Zombie) × Plant :=
  if plant.type = "SUNFLOWER" then
    if now - plant.lastSunGeneration ≥ SUNFLOWER.sunGenerationInterval then
      ((acc.1 + SUNFLOWER.sunAmount, acc.2), { plant with lastSunGeneration := now })
    else (acc, plant)
  else if plant.type = "PEASHOOTER" then
    if now - plant.lastShot ≥ PEASHOOTER.shootInterval then
      match pickTarget plant.x plant.y.floor acc.2 with
      | some (i, _) =>
        let pea := fun z : Zombie => { z with health := z.health - PEASHOOTER.damage }
        ((acc.1, modifyIdx pea acc.2 i), { plant with lastShot := now })
      | none => (acc, plant)
    else (acc, plant)
  else (acc, plant)

/-- The full `game.plants.forEach(...)` loop. -/
def plantPhase (now : Int) (acc : Int × List Zombie) :
    List Plant → (Int × List Zombie) × List Plant
  | [] => (acc, [])
  | p :: rest =>
    let s := plantStep now acc p
    let r := plantPhase now s.1 rest
    (r.1, s.2 :: r.2)

/-- The remainder of `updateGameState` after the wave-status block (ambulance,
zombie and plant loops, then dead-unit removal); split out so each phase can be
reasoned about against an arbitrary incoming state. -/
def tickRest (game : Game) (now : Int) (delta : Rat) : Game :=
  let ap := ambulancePhase delta game.ambulances game.zombies
  let g2 := { game with ambulances := ap.1, zombies := ap.2 }
  let zp := zombiePhase now delta ⟨g2.plants, g2.ambulances, g2.status, g2.score⟩
      g2.zombies
  let g3 := { g2 with
                plants := zp.1.plants, ambulances := zp.1.ambulances,
                status := zp.1.status, score := zp.1.score, zombies := zp.2 }
  let pp := plantPhase now (g3.sun, g3.zombies) g3.plants
  let g4 := { g3 with sun := pp.1.1, zombies := pp.1.2, plants := pp.2 }
  { g4 with
      zombies := g4.zombies.filter fun z => z.health > 0,
      plants := g4.plants.filter fun p => p.health > 0 }

/-- `updateGameState(game, gameId)`: one simulation tick at wall-clock `now`. -/
def updateGameState (game : Game) (now : Int) : Game :=
  let delta : Rat := ((now - game.lastUpdate : Int) : Rat) / 1000
  let g0 := { game with lastUpdate := now }
  let ws := waveStep g0 now
  if ws.2 then ws.1 else tickRest ws.1 now delta

/-- One firing of the `setInterval` callback in `startGameLoop`: when the game
is gone or `ended` the interval is cleared and nothing runs, so no tick ever
executes on an ended session. -/
def loopStep (game : Game) (now : Int) : Game :=
  if game.status = "ended" then game else updateGameState game now

/-! ### The house-crossing branch of the zombie loop, named for the theorems -/

/-- The branch of the per-zombie loop body that runs `endGame(game, 'zombies', ..)`:
the zombie is not engaged with a plant, its move crosses `x ≤ 0`, and no unused
rescue vehicle exists for its floored row. -/
def crossesNoVehicle (delta : Rat) (acc : ZAcc) (z : Zombie) : Bool :=
  match findIdxP (collides z) acc.plants with
  | some _ => false
  | none =>
    if z.x - z.speed * delta ≤ 0 then
      match findIdxP (fun a => a.row == z.y.floor && !a.used) acc.ambulances with
      | some _ => false
      | none => true
    else false

/-- How many zombies of the list take that branch while the per-zombie loop runs,
each judged against the accumulator state at its own processing moment. -/
def countCrossNoVehicle (now : Int) (delta : Rat) (acc : ZAcc) : List Zombie → Nat
  | [] => 0
  | z :: rest =>
    (if crossesNoVehicle delta acc z then 1 else 0) +
      countCrossNoVehicle now delta (zombieStep now delta acc z).1 rest

/-- The wall-clock delta a tick at `now` feeds into its phases. -/
def tickDelta (g : Game) (now : Int) : Rat :=
  ((now - g.lastUpdate : Int) : Rat) / 1000

/-- The accumulator entering the per-zombie loop of a tick at `now`. -/
def tickAcc0 (g : Game) (now : Int) : ZAcc :=
  let ws := waveStep { g with lastUpdate := now } now
  let ap := ambulancePhase (tickDelta g now) ws.1.ambulances ws.1.zombies
  ⟨ws.1.plants, ap.1, ws.1.status, ws.1.score⟩

/-- The zombie list entering the per-zombie loop of a tick at `now`. -/
def tickZombies0 (g : Game) (now : Int) : List Zombie :=
  let ws := waveStep { g with lastUpdate := now } now
  (ambulancePhase (tickDelta g now) ws.1.ambulances ws.1.zombies).2

/-- How many zombies cross the house line with no unused rescue vehicle for
their row during the tick of `g` at `now`. -/
def tickCrossCount (g : Game) (now : Int) : Nat :=
  countCrossNoVehicle now (tickDelta g now) (tickAcc0 g now) (tickZombies0 g now)

/-! ### Stated invariants and sample states used to instantiate the theorems -/

/-- No two plants occupy the same floored grid cell. -/
def plantsNoOverlap (ps : List Plant) : Prop :=
  ps.Pairwise fun p q => ¬(p.x.floor = q.x.floor ∧ p.y.floor = q.y.floor)

/-- `q` sits at exactly the same raw position as `p`. -/
def samePos (p q : Plant) : Prop := q.x = p.x ∧ q.y = p.y

/-- A running two-player session with some extra sun banked. -/
def gPlay : Game :=
  { mkGame 0 with status := "playing", waveStatus := "active", sun := 200 }

/-- A basic zombie in row 2 about to reach the house line. -/
def zW1 : Zombie := ⟨"BASIC", 1/4, 2, 100, 1/2, 0⟩

/-- The zombie-loop accumulator of a fresh playing session: no plants, the five
idle rescue vehicles, a zero score. -/
def accW1 : ZAcc := ⟨[], initAmbulances, "playing", ⟨0, 0⟩⟩

/-- A running session with two zombies in row 0 about to cross `x ≤ 0` in the
same tick while every rescue vehicle is already `used`. -/
def gC1 : Game :=
  ⟨[], [⟨"BASIC", 1/4, 0, 100, 1/2, 0⟩, ⟨"BASIC", 1/2, 0, 100, 1/2, 0⟩], 50, [],
   "playing", 0, 100, 1000, "active", 0,
   [⟨0, 10, false, true, "used"⟩, ⟨1, 10, false, true, "used"⟩,
    ⟨2, 10, false, true, "used"⟩, ⟨3, 10, false, true, "used"⟩,
    ⟨4, 10, false, true, "used"⟩], ⟨0, 0⟩⟩

/-- A peashooter in row 2 whose shot is due. -/
def pW7 : Plant := ⟨"PEASHOOTER", 2, 2, 100, 0, 0⟩

/-- Two zombies ahead of `pW7` in row 2; the second one is closer. -/
def zsW7 : List Zombie := [⟨"BASIC", 5, 2, 100, 1/2, 0⟩, ⟨"CONE", 4, 2, 200, 9/20, 0⟩]

/-- A rescue vehicle that has already completed its run. -/
def aW8 : Ambulance := ⟨3, 10, false, true, "used"⟩

/-- A running session whose vehicle list holds only the used `aW8`. -/
def gW8 : Game := { mkGame 0 with status := "playing", ambulances := [aW8] }

end PvZ

namespace PvZ

section ClaimVerification

attribute [local semireducible] Rat.mul Rat.add Rat.sub Rat.inv

/-- C5: a `placePlant` command fails with `invalidState` unless the session status
is `playing`, then with `invalidPosition` when the coordinates leave the 9×5 grid,
then with `spotTaken` when a plant already occupies the floored cell, then with
`notEnoughSun` when sun is below the kind's cost; exactly when none of these hold
it debits the sun by the cost and appends a plant whose shot timer and
sun-generation timer are both the current time. -/
theorem placePlant_cases (g : Game) (typ : String) (pt : PlantType) (x y : Rat) (now : Int)
    (hk : PLANT_TYPES typ = some pt) :
    (g.status ≠ "playing" → placePlant g typ x y now = (.invalidState, g)) ∧
    (g.status = "playing" → (x < 0 ∨ x ≥ 9 ∨ y < 0 ∨ y ≥ 5) →
      placePlant g typ x y now = (.invalidPosition, g)) ∧
    (g.status = "playing" → ¬(x < 0 ∨ x ≥ 9 ∨ y < 0 ∨ y ≥ 5) →
      isSpotTaken g.plants x y = true → placePlant g typ x y now = (.spotTaken, g)) ∧
    (g.status = "playing" → ¬(x < 0 ∨ x ≥ 9 ∨ y < 0 ∨ y ≥ 5) →
      isSpotTaken g.plants x y = false → g.sun < pt.cost →
      placePlant g typ x y now = (.notEnoughSun, g)) ∧
    (g.status = "playing" → ¬(x < 0 ∨ x ≥ 9 ∨ y < 0 ∨ y ≥ 5) →
      isSpotTaken g.plants x y = false → pt.cost ≤ g.sun →
      placePlant g typ x y now =
        (.ok, { g with
                  sun := g.sun - pt.cost,
                  plants := g.plants ++ [⟨typ, x, y, pt.health, now, now⟩] })) ∧
    ((placePlant g typ x y now).1 = .ok ↔
      g.status = "playing" ∧ ¬(x < 0 ∨ x ≥ 9 ∨ y < 0 ∨ y ≥ 5) ∧
      isSpotTaken g.plants x y = false ∧ pt.cost ≤ g.sun) := by
  unfold placePlant
  rw [hk]
  split_ifs with h1 h2 h3 <;> simp_all
  split_ifs with h4 <;> simp_all [not_le, not_lt]

/-- C6: a `placeZombie` command fails with `invalidState` unless status is
`playing` and the wave phase is `active`, then with `invalidPosition` when the row
leaves 0..4, then with `notEnoughPoints` when the kind's cost exceeds the wave
budget; exactly when none of these hold it debits the budget and appends a zombie
at column 8 of the requested row with the kind's full health — and a nonnegative
budget stays nonnegative. -/
theorem placeZombie_cases (g : Game) (key : String) (zt : ZombieType) (y : Rat) (now : Int)
    (hk : ZOMBIE_TYPES key = some zt) :
    (¬(g.status = "playing" ∧ g.waveStatus = "active") →
       placeZombie g (some key) y now = (.invalidState, g)) ∧
    (g.status = "playing" → g.waveStatus = "active" → (y < 0 ∨ y ≥ 5) →
       placeZombie g (some key) y now = (.invalidPosition, g)) ∧
    (g.status = "playing" → g.waveStatus = "active" → ¬(y < 0 ∨ y ≥ 5) →
       g.wavePoints < zt.cost →
       placeZombie g (some key) y now = (.notEnoughPoints, g)) ∧
    (g.status = "playing" → g.waveStatus = "active" → ¬(y < 0 ∨ y ≥ 5) →
       zt.cost ≤ g.wavePoints →
       placeZombie g (some key) y now =
         (.ok, { g with
                   wavePoints := g.wavePoints - zt.cost,
                   zombies := g.zombies ++ [⟨key, 8, y, zt.health, zt.speed, now⟩] })) ∧
    ((placeZombie g (some key) y now).1 = .ok ↔
       g.status = "playing" ∧ g.waveStatus = "active" ∧ ¬(y < 0 ∨ y ≥ 5) ∧
       zt.cost ≤ g.wavePoints) ∧
    (0 ≤ g.wavePoints → 0 ≤ (placeZombie g (some key) y now).2.wavePoints) := by
  have hne : key ≠ "" := by
    rintro rfl
    simp [ZOMBIE_TYPES] at hk
  have hzk : zombieKey (some key) = key := by simp [zombieKey, hne]
  simp only [placeZombie, hzk, hk]
  split_ifs with h1 h2 h3 <;> (simp_all [not_le, not_lt]; try tauto)

/-- C3: the placement commands are all-or-nothing. An accepted `placePlant`
changes exactly the sun (down by the kind's cost) and the plant list (one append);
an accepted `placeZombie` changes exactly the wave budget (down by the cost) and
the zombie list; any rejected command leaves the whole session state unchanged. -/
theorem place_atomic (g : Game) (typ : String) (oty : Option String)
    (x y yz : Rat) (now nz : Int) :
    ((placePlant g typ x y now).1 = .ok →
      ∃ pt, PLANT_TYPES typ = some pt ∧
        (placePlant g typ x y now).2 =
          { g with
              sun := g.sun - pt.cost,
              plants := g.plants ++ [⟨typ, x, y, pt.health, now, now⟩] }) ∧
    ((placePlant g typ x y now).1 ≠ .ok → (placePlant g typ x y now).2 = g) ∧
    ((placeZombie g oty yz nz).1 = .ok →
      ∃ zt, ZOMBIE_TYPES (zombieKey oty) = some zt ∧
        (placeZombie g oty yz nz).2 =
          { g with
              wavePoints := g.wavePoints - zt.cost,
              zombies := g.zombies ++ [⟨zombieKey oty, 8, yz, zt.health, zt.speed, nz⟩] }) ∧
    ((placeZombie g oty yz nz).1 ≠ .ok → (placeZombie g oty yz nz).2 = g) := by
  refine ⟨?_, ?_, ?_, ?_⟩
  · rcases hPT : PLANT_TYPES typ with _ | pt <;>
      simp only [placePlant, hPT] <;> split_ifs <;> simp_all
  · rcases hPT : PLANT_TYPES typ with _ | pt <;>
      simp only [placePlant, hPT] <;> split_ifs <;> simp_all
  · rcases hZT : ZOMBIE_TYPES (zombieKey oty) with _ | zt <;>
      simp only [placeZombie, hZT] <;> split_ifs <;> simp_all
  · rcases hZT : ZOMBIE_TYPES (zombieKey oty) with _ | zt <;>
      simp only [placeZombie, hZT] <;> split_ifs <;> simp_all

/-- C9: `placeZombie` with an absent or falsy (empty-string) kind behaves exactly
as with `BASIC` and in particular succeeds when the state and budget allow it,
while `placePlant` or `placeZombie` naming an unknown kind is a silent no-op — the
state is returned unchanged and the taken branch emits no error event. -/
theorem zombieDefault_unknownSilent :
    (∀ g y now, placeZombie g none y now = placeZombie g (some "BASIC") y now) ∧
    (∀ g y now, placeZombie g (some "") y now = placeZombie g (some "BASIC") y now) ∧
    (∀ g y now, g.status = "playing" → g.waveStatus = "active" → 0 ≤ y → y < 5 →
       25 ≤ g.wavePoints →
       (placeZombie g none y now).1 = .ok ∧
       (placeZombie g none y now).2.zombies =
         g.zombies ++ [⟨"BASIC", 8, y, 100, 1/2, now⟩]) ∧
    (∀ g typ x y now, g.status = "playing" → PLANT_TYPES typ = none →
       placePlant g typ x y now = (.unknownKind, g) ∧
       plantErrorEmitted .unknownKind = false) ∧
    (∀ g key y now, g.status = "playing" → g.waveStatus = "active" →
       ZOMBIE_TYPES (zombieKey (some key)) = none →
       placeZombie g (some key) y now = (.unknownKind, g) ∧
       zombieErrorEmitted .unknownKind = false) := by
  refine ⟨fun g y now => rfl, fun g y now => rfl, ?_, ?_, ?_⟩
  · intro g y now hs hw hy0 hy5 hpts
    simp only [placeZombie, zombieKey, ZOMBIE_TYPES, BASIC]
    split_ifs with hbad hy hc <;> simp_all [not_le, not_lt]
    · rcases hy with h | h <;> linarith
    · omega
  · intro g typ x y now hs hk
    simp only [placePlant, hk]
    split_ifs <;> simp_all [plantErrorEmitted]
  · intro g key y now hs hw hk
    simp only [placeZombie, hk]
    split_ifs <;> simp_all [zombieErrorEmitted]

/-- C10: `placePlant` accepts arbitrary non-integer coordinates: for any
rationals `0 ≤ x < 9`, `0 ≤ y < 5` with the floored cell free and enough sun the
command succeeds and stores the plant at the exact fractional position, and only
the occupancy check floors — afterwards the whole floored cell reads as taken
(the tick's `collides` and `eligTarget` compare raw x by definition). -/
theorem placePlant_fractional (g : Game) (typ : String) (pt : PlantType) (x y : Rat)
    (now : Int) (hk : PLANT_TYPES typ = some pt) (hst : g.status = "playing")
    (hx0 : 0 ≤ x) (hx9 : x < 9) (hy0 : 0 ≤ y) (hy5 : y < 5)
    (hfree : isSpotTaken g.plants x y = false) (hsun : pt.cost ≤ g.sun) :
    (placePlant g typ x y now).1 = .ok ∧
    (placePlant g typ x y now).2.plants =
      g.plants ++ [⟨typ, x, y, pt.health, now, now⟩] ∧
    (∀ x2 y2 : Rat, x2.floor = x.floor → y2.floor = y.floor →
       isSpotTaken (placePlant g typ x y now).2.plants x2 y2 = true) := by
  have hplants : (placePlant g typ x y now).2.plants =
      g.plants ++ [⟨typ, x, y, pt.health, now, now⟩] := by
    simp only [placePlant, hk]
    split_ifs with h1 h2 h3 h4 <;> simp_all [not_le, not_lt]
    · rcases h2 with h | h | h | h <;> linarith
    · linarith
  refine ⟨?_, hplants, ?_⟩
  · simp only [placePlant, hk]
    split_ifs with h1 h2 h3 h4 <;> simp_all [not_le, not_lt]
    · rcases h2 with h | h | h | h <;> linarith
    · linarith
  · intro x2 y2 hx2 hy2
    rw [hplants]
    simp [isSpotTaken, hx2, hy2]

theorem findIdxP_none_iff {α : Type} {p : α → Bool} {l : List α} :
    findIdxP p l = none ↔ ∀ x ∈ l, p x = false := by
  induction l with
  | nil => simp [findIdxP]
  | cons a as ih => by_cases h : p a <;> simp [findIdxP, h, ih]

theorem findIdxP_some_spec {α : Type} {p : α → Bool} {l : List α} {j : Nat}
    (h : findIdxP p l = some j) : ∃ x, l[j]? = some x ∧ p x = true := by
  induction l generalizing j with
  | nil => simp [findIdxP] at h
  | cons a as ih =>
    by_cases hpa : p a
    · simp only [findIdxP, if_pos hpa, Option.some.injEq] at h
      subst h
      exact ⟨a, by simp, hpa⟩
    · simp only [findIdxP, if_neg hpa, Option.map_eq_some'] at h
      rcases h with ⟨j2, hj2, rfl⟩
      rcases ih hj2 with ⟨x, hx, hpx⟩
      exact ⟨x, by simpa using hx, hpx⟩

theorem modifyIdx_getElem_ne {α : Type} (f : α → α) (l : List α) (i j : Nat)
    (h : i ≠ j) : (modifyIdx f l j)[i]? = l[i]?  := by
  induction l generalizing i j with
  | nil => simp [modifyIdx]
  | cons a as ih =>
    cases j with
    | zero =>
      cases i with
      | zero => exact absurd rfl h
      | succ i2 => simp [modifyIdx]
    | succ j2 =>
      cases i with
      | zero => simp [modifyIdx]
      | succ i2 => simpa [modifyIdx] using ih i2 j2 (by omega)

theorem modifyIdx_getElem_eq {α : Type} (f : α → α) (l : List α) (j : Nat) :
    (modifyIdx f l j)[j]? = (l[j]?).map f := by
  induction l generalizing j with
  | nil => simp [modifyIdx]
  | cons a as ih =>
    cases j with
    | zero => simp [modifyIdx]
    | succ j2 => simpa [modifyIdx] using ih j2

theorem waveStep_frame (g : Game) (now : Int) :
    (waveStep g now).1.plants = g.plants ∧ (waveStep g now).1.zombies = g.zombies ∧
    (waveStep g now).1.sun = g.sun ∧ (waveStep g now).1.ambulances = g.ambulances := by
  unfold waveStep endGame
  split_ifs <;> simp [apply_ite]

theorem waveStep_active_short (g : Game) (now : Int) (hw : g.waveStatus = "active")
    (h : now - g.waveStartTime < WAVE_DURATION) : waveStep g now = (g, false) := by
  simp [waveStep, hw, not_le.2 h]

theorem tickRest_currentWave (g : Game) (now : Int) (delta : Rat) :
    (tickRest g now delta).currentWave = g.currentWave := rfl

theorem tickRest_wavePoints (g : Game) (now : Int) (delta : Rat) :
    (tickRest g now delta).wavePoints = g.wavePoints := rfl

theorem tickRest_waveStatus (g : Game) (now : Int) (delta : Rat) :
    (tickRest g now delta).waveStatus = g.waveStatus := rfl

theorem tickRest_waveStartTime (g : Game) (now : Int) (delta : Rat) :
    (tickRest g now delta).waveStartTime = g.waveStartTime := rfl

/-- C2: one tick on a session whose wave phase is `break` with the break
duration elapsed increments the wave index; if the post-increment index reaches
the configured total with no zombies alive the session ends with a plant victory
(status `ended`, plants score +1, zombie/plant/sun state untouched); otherwise
the budget is recomputed to base + index × increment, the phase becomes `active`,
and the phase-start timestamp is reset to the tick time. -/
theorem waveBreakTransition (g : Game) (now : Int)
    (hw : g.waveStatus = "break")
    (hel : now - g.waveStartTime ≥ BREAK_DURATION) :
    ((g.currentWave + 1 ≥ TOTAL_WAVES ∧ g.zombies = []) →
       (updateGameState g now).status = "ended" ∧
       (updateGameState g now).score.plants = g.score.plants + 1 ∧
       (updateGameState g now).score.zombies = g.score.zombies ∧
       (updateGameState g now).currentWave = g.currentWave + 1 ∧
       (updateGameState g now).plants = g.plants ∧
       (updateGameState g now).zombies = g.zombies ∧
       (updateGameState g now).sun = g.sun) ∧
    (¬(g.currentWave + 1 ≥ TOTAL_WAVES ∧ g.zombies = []) →
       (updateGameState g now).currentWave = g.currentWave + 1 ∧
       (updateGameState g now).wavePoints =
         POINTS_PER_WAVE + (g.currentWave + 1) * POINTS_INCREMENT ∧
       (updateGameState g now).waveStatus = "active" ∧
       (updateGameState g now).waveStartTime = now) := by
  constructor
  · rintro ⟨hend, hzero⟩
    simp only [updateGameState, waveStep, endGame]
    simp [hw, hel, hend, hzero]
  · intro hnot
    simp only [updateGameState, waveStep, endGame]
    by_cases hend : g.currentWave + 1 ≥ TOTAL_WAVES
    · have hz : g.zombies ≠ [] := by
        intro hz
        exact hnot ⟨hend, hz⟩
      simp [hw, hel, hend, hz, List.length_eq_zero, tickRest_currentWave,
        tickRest_wavePoints, tickRest_waveStatus, tickRest_waveStartTime]
    · simp [hw, hel, hend, List.length_eq_zero, tickRest_currentWave,
        tickRest_wavePoints, tickRest_waveStatus, tickRest_waveStartTime]

theorem ambStep_inactive (delta : Rat) (zs : List Zombie) (a : Ambulance)
    (h : a.active = false) : ambStep delta zs a = (a, zs) := by
  simp [ambStep, h]

theorem ambStep_used (delta : Rat) (zs : List Zombie) (a : Ambulance)
    (h : a.used = true) : ambStep delta zs a = (a, zs) := by
  simp [ambStep, h]

theorem ambulancePhase_inactive (delta : Rat) (l : List Ambulance) (zs : List Zombie)
    (h : ∀ a ∈ l, a.active = false) : ambulancePhase delta l zs = (l, zs) := by
  induction l generalizing zs with
  | nil => rfl
  | cons a rest ih =>
    have ha : a.active = false := h a (by simp)
    have hrest : ∀ b ∈ rest, b.active = false := fun b hb => h b (by simp [hb])
    simp [ambulancePhase, ambStep_inactive delta zs a ha, ih zs hrest]

theorem ambulancePhase_used_get (delta : Rat) (l : List Ambulance) (zs : List Zombie)
    (i : Nat) (a : Ambulance) (hi : l[i]? = some a) (hu : a.used = true) :
    (ambulancePhase delta l zs).1[i]? = some a := by
  induction l generalizing zs i with
  | nil => simp at hi
  | cons b rest ih =>
    cases i with
    | zero =>
      simp only [List.getElem?_cons_zero, Option.some.injEq] at hi
      subst hi
      simp [ambulancePhase, ambStep_used delta zs b hu]
    | succ i2 =>
      simp only [List.getElem?_cons_succ] at hi
      simp [ambulancePhase, ih _ i2 hi]

theorem zombieStep_ambulances_used (now : Int) (delta : Rat) (acc : ZAcc) (z : Zombie)
    (i : Nat) (a : Ambulance) (hi : acc.ambulances[i]? = some a) (hu : a.used = true) :
    (zombieStep now delta acc z).1.ambulances[i]? = some a := by
  cases hc : findIdxP (collides z) acc.plants with
  | some k =>
    simp only [zombieStep, hc]
    split_ifs <;> simp [hi]
  | none =>
    simp only [zombieStep, hc]
    split_ifs with hx
    · cases hf : findIdxP (fun b => b.row == z.y.floor && !b.used) acc.ambulances with
      | some j =>
        rcases findIdxP_some_spec hf with ⟨b, hb, hpb⟩
        have hij : i ≠ j := by
          intro hij
          subst hij
          rw [hi] at hb
          cases hb
          simp [hu] at hpb
        simp [modifyIdx_getElem_ne _ _ _ _ hij, hi]
      | none => simpa using hi
    · simpa using hi

theorem zombiePhase_ambulances_used (now : Int) (delta : Rat) (acc : ZAcc)
    (zs : List Zombie) (i : Nat) (a : Ambulance)
    (hi : acc.ambulances[i]? = some a) (hu : a.used = true) :
    (zombiePhase now delta acc zs).1.ambulances[i]? = some a := by
  induction zs generalizing acc with
  | nil => simpa [zombiePhase] using hi
  | cons z rest ih =>
    simp only [zombiePhase]
    exact ih _ (zombieStep_ambulances_used now delta acc z i a hi hu)

theorem tickRest_ambulances_used (g : Game) (now : Int) (delta : Rat) (i : Nat)
    (a : Ambulance) (hi : g.ambulances[i]? = some a) (hu : a.used = true) :
    (tickRest g now delta).ambulances[i]? = some a := by
  show (zombiePhase now delta _ _).1.ambulances[i]? = some a
  apply zombiePhase_ambulances_used
  · show ((ambulancePhase delta g.ambulances g.zombies).1)[i]? = some a
    exact ambulancePhase_used_get delta g.ambulances g.zombies i a hi hu
  · exact hu

/-- C8: a used rescue vehicle is permanently inert: its step is the identity and
kills no zombies, the placement commands never touch vehicles, and a whole tick
returns any used vehicle's record unchanged — it never moves, never kills again,
is never re-activated, and `used` stays `true`. -/
theorem usedVehicleInert :
    (∀ delta zs a, a.used = true → ambStep delta zs a = (a, zs)) ∧
    (∀ g typ x y now, ((placePlant g typ x y now).2).ambulances = g.ambulances) ∧
    (∀ g oty y now, ((placeZombie g oty y now).2).ambulances = g.ambulances) ∧
    (∀ (g : Game) (now : Int) (i : Nat) (a : Ambulance),
       g.ambulances[i]? = some a → a.used = true →
       (updateGameState g now).ambulances[i]? = some a) := by
  refine ⟨ambStep_used, ?_, ?_, ?_⟩
  · intro g typ x y now
    rcases hPT : PLANT_TYPES typ with _ | pt <;>
      simp only [placePlant, hPT] <;> split_ifs <;> simp
  · intro g oty y now
    rcases hZT : ZOMBIE_TYPES (zombieKey oty) with _ | zt <;>
      simp only [placeZombie, hZT] <;> split_ifs <;> simp
  · intro g now i a hi hu
    have hamb1 : (waveStep { g with lastUpdate := now } now).1.ambulances =
        g.ambulances := (waveStep_frame _ now).2.2.2
    simp only [updateGameState]
    split_ifs with hws
    · rw [hamb1]
      exact hi
    · refine tickRest_ambulances_used _ _ _ i a ?_ hu
      rw [hamb1]
      exact hi

theorem forall2_samePos_refl (l : List Plant) : List.Forall₂ samePos l l := by
  induction l with
  | nil => exact .nil
  | cons p ps ih => exact .cons ⟨rfl, rfl⟩ ih

theorem forall2_samePos_trans {l1 l2 l3 : List Plant}
    (h12 : List.Forall₂ samePos l1 l2) (h23 : List.Forall₂ samePos l2 l3) :
    List.Forall₂ samePos l1 l3 := by
  induction h12 generalizing l3 with
  | nil =>
    cases h23
    exact .nil
  | cons hpq hl ih =>
    cases h23 with
    | cons hqr hl2 => exact .cons ⟨hqr.1.trans hpq.1, hqr.2.trans hpq.2⟩ (ih hl2)

theorem forall2_samePos_mem_right {l l2 : List Plant} (h : List.Forall₂ samePos l l2)
    {q : Plant} (hq : q ∈ l2) : ∃ p ∈ l, samePos p q := by
  induction h with
  | nil => simp at hq
  | cons hpq hl ih =>
    rcases List.mem_cons.1 hq with rfl | hq2
    · exact ⟨_, by simp, hpq⟩
    · rcases ih hq2 with ⟨p, hp, hs⟩
      exact ⟨p, by simp [hp], hs⟩

theorem plantsNoOverlap_of_forall2 {l l2 : List Plant}
    (hf : List.Forall₂ samePos l l2) (h : plantsNoOverlap l) : plantsNoOverlap l2 := by
  induction hf with
  | nil => exact List.Pairwise.nil
  | cons hpq hl ih =>
    rcases List.pairwise_cons.1 h with ⟨hhead, htail⟩
    refine List.Pairwise.cons ?_ (ih htail)
    intro q2 hq2 hcontra
    rcases forall2_samePos_mem_right hl hq2 with ⟨q, hq, hs⟩
    rw [hpq.1, hs.1, hpq.2, hs.2] at hcontra
    exact hhead q hq hcontra

theorem forall2_samePos_modifyIdx (f : Plant → Plant)
    (hf : ∀ p, (f p).x = p.x ∧ (f p).y = p.y) (l : List Plant) (i : Nat) :
    List.Forall₂ samePos l (modifyIdx f l i) := by
  induction l generalizing i with
  | nil => exact .nil
  | cons p ps ih =>
    cases i with
    | zero => exact .cons ⟨(hf p).1, (hf p).2⟩ (forall2_samePos_refl ps)
    | succ i2 => exact .cons ⟨rfl, rfl⟩ (ih i2)

theorem zombieStep_plants_forall2 (now : Int) (delta : Rat) (acc : ZAcc) (z : Zombie) :
    List.Forall₂ samePos acc.plants (zombieStep now delta acc z).1.plants := by
  cases hc : findIdxP (collides z) acc.plants with
  | some k =>
    simp only [zombieStep, hc]
    split_ifs
    · exact forall2_samePos_modifyIdx
        (fun p => { p with
          health := p.health - ((ZOMBIE_TYPES z.type).getD defaultZombieType).damage })
        (fun p => ⟨rfl, rfl⟩) acc.plants k
    · exact forall2_samePos_refl _
  | none =>
    simp only [zombieStep, hc]
    split_ifs
    · cases hf : findIdxP (fun a => a.row == z.y.floor && !a.used) acc.ambulances <;>
        simp [hf, samePos]
    · exact forall2_samePos_refl _

theorem zombiePhase_plants_forall2 (now : Int) (delta : Rat) (acc : ZAcc)
    (zs : List Zombie) :
    List.Forall₂ samePos acc.plants (zombiePhase now delta acc zs).1.plants := by
  induction zs generalizing acc with
  | nil => exact forall2_samePos_refl _
  | cons z rest ih =>
    exact forall2_samePos_trans (zombieStep_plants_forall2 now delta acc z) (ih _)

theorem zombiePhase_plants_forall2_of (now : Int) (delta : Rat) (acc : ZAcc)
    (zs : List Zombie) (ps : List Plant) (hacc : acc.plants = ps) :
    List.Forall₂ samePos ps (zombiePhase now delta acc zs).1.plants :=
  hacc ▸ zombiePhase_plants_forall2 now delta acc zs

theorem plantStep_pos (now : Int) (acc : Int × List Zombie) (p : Plant) :
    samePos p (plantStep now acc p).2 := by
  unfold plantStep
  split_ifs <;>
    first
    | exact ⟨rfl, rfl⟩
    | (cases hpt : pickTarget p.x p.y.floor acc.2 with
       | none => simp [hpt, samePos]
       | some t =>
         obtain ⟨i, xv⟩ := t
         simp [hpt, samePos])

theorem plantPhase_plants_forall2 (now : Int) (acc : Int × List Zombie)
    (ps : List Plant) : List.Forall₂ samePos ps (plantPhase now acc ps).2 := by
  induction ps generalizing acc with
  | nil => exact .nil
  | cons p rest ih => exact .cons (plantStep_pos now acc p) (ih _)

theorem tickRest_plants_noOverlap (g : Game) (now : Int) (delta : Rat)
    (h : plantsNoOverlap g.plants) : plantsNoOverlap (tickRest g now delta).plants := by
  unfold plantsNoOverlap at h ⊢
  refine List.Pairwise.sublist (List.filter_sublist _) ?_
  refine plantsNoOverlap_of_forall2 ?_ h
  refine forall2_samePos_trans ?_ (plantPhase_plants_forall2 _ _ _)
  exact zombiePhase_plants_forall2_of _ _ _ _ _ rfl

theorem updateGameState_plants_noOverlap (g : Game) (now : Int)
    (h : plantsNoOverlap g.plants) : plantsNoOverlap (updateGameState g now).plants := by
  have hws := waveStep_frame { g with lastUpdate := now } now
  simp only [updateGameState]
  split_ifs with hend
  · rw [hws.1]
    exact h
  · refine tickRest_plants_noOverlap _ _ _ ?_
    rw [hws.1]
    exact h

theorem placePlant_plants_noOverlap (g : Game) (typ : String) (x y : Rat) (now : Int)
    (h : plantsNoOverlap g.plants) :
    plantsNoOverlap ((placePlant g typ x y now).2).plants := by
  rcases hPT : PLANT_TYPES typ with _ | pt <;>
    simp only [placePlant, hPT] <;> split_ifs <;> try exact h
  case _ hfree hsun =>
    rename_i hst hpos
    unfold plantsNoOverlap at h ⊢
    simp only
    rw [List.pairwise_append]
    refine ⟨h, by simp, ?_⟩
    intro p hp q hq
    simp only [List.mem_singleton] at hq
    subst hq
    rintro ⟨hA, hB⟩
    have hfree2 := (by simpa [isSpotTaken] using hfree :
      ∀ p2 ∈ g.plants, p2.x.floor = x.floor → ¬p2.y.floor = y.floor)
    exact hfree2 p hp (by simpa using hA) (by simpa using hB)

/-- C4: the no-two-plants-per-floored-cell invariant is preserved by every
command and every simulation tick: from a state satisfying it, `placePlant`,
`placeZombie` and `updateGameState` all yield plant lists that satisfy it. -/
theorem plantCellInvariant (g : Game) (h : plantsNoOverlap g.plants) :
    (∀ typ x y now, plantsNoOverlap ((placePlant g typ x y now).2).plants) ∧
    (∀ oty y now, plantsNoOverlap ((placeZombie g oty y now).2).plants) ∧
    (∀ now, plantsNoOverlap (updateGameState g now).plants) := by
  refine ⟨fun typ x y now => placePlant_plants_noOverlap g typ x y now h, ?_, 
    fun now => updateGameState_plants_noOverlap g now h⟩
  intro oty y now
  rcases hZT : ZOMBIE_TYPES (zombieKey oty) with _ | zt <;>
    simp only [placeZombie, hZT] <;> split_ifs <;> simpa using h

theorem pickTarget_none_iff (px : Rat) (f : Int) (zs : List Zombie) :
    pickTarget px f zs = none ↔ ∀ z ∈ zs, eligTarget px f z = false := by
  induction zs with
  | nil => simp [pickTarget]
  | cons z rest ih =>
    by_cases hz : eligTarget px f z
    · cases ht : pickTarget px f rest with
      | none => simp [pickTarget, hz, ht]
      | some t =>
        obtain ⟨j, xj⟩ := t
        simp only [pickTarget, hz, ht, Option.map_some']
        split_ifs <;> simp [hz]
    · simp only [pickTarget, hz, if_neg, Bool.false_eq_true, ite_false]
      rw [Option.map_eq_none']
      simp [ih, hz]

theorem pickTarget_some_spec (px : Rat) (f : Int) (zs : List Zombie) (i : Nat) (xv : Rat)
    (h : pickTarget px f zs = some (i, xv)) :
    ∃ z, zs[i]? = some z ∧ eligTarget px f z = true ∧ z.x = xv ∧
      (∀ w ∈ zs, eligTarget px f w = true → xv ≤ w.x) ∧
      (∀ j w, j < i → zs[j]? = some w → eligTarget px f w = true → xv < w.x) := by
  induction zs generalizing i xv with
  | nil => simp [pickTarget] at h
  | cons z rest ih =>
    by_cases hz : eligTarget px f z
    · cases ht : pickTarget px f rest with
      | none =>
        simp only [pickTarget, hz, ht, Option.map_none', if_true] at h
        obtain ⟨rfl, rfl⟩ := Prod.mk.injEq .. ▸ (Option.some.injEq .. ▸ h :
          (0, z.x) = (i, xv))
        refine ⟨z, by simp, hz, rfl, ?_, ?_⟩
        · intro w hw hew
          rcases List.mem_cons.1 hw with rfl | hw2
          · exact le_refl _
          · have := (pickTarget_none_iff px f rest).1 ht w hw2
            rw [hew] at this
            cases this
        · intro j w hj _ _
          omega
      | some t =>
        obtain ⟨j, xj⟩ := t
        rcases ih j xj ht with ⟨w0, hw0get, hw0e, hw0x, hmin, hfirst⟩
        simp only [pickTarget, hz, ht, Option.map_some', if_true] at h
        split_ifs at h with hlt
        · obtain ⟨rfl, rfl⟩ := Prod.mk.injEq .. ▸ (Option.some.injEq .. ▸ h :
            (j + 1, xj) = (i, xv))
          refine ⟨w0, by simpa using hw0get, hw0e, hw0x, ?_, ?_⟩
          · intro w hw hew
            rcases List.mem_cons.1 hw with rfl | hw2
            · exact le_of_lt hlt
            · exact hmin w hw2 hew
          · intro j2 w hj2 hget hew
            cases j2 with
            | zero =>
              simp only [List.getElem?_cons_zero, Option.some.injEq] at hget
              subst hget
              exact hlt
            | succ j3 =>
              simp only [List.getElem?_cons_succ] at hget
              exact hfirst j3 w (by omega) hget hew
        · obtain ⟨rfl, rfl⟩ := Prod.mk.injEq .. ▸ (Option.some.injEq .. ▸ h :
            (0, z.x) = (i, xv))
          refine ⟨z, by simp, hz, rfl, ?_, ?_⟩
          · intro w hw hew
            rcases List.mem_cons.1 hw with rfl | hw2
            · exact le_refl _
            · exact le_trans (not_lt.1 hlt) (hw0x ▸ hmin w hw2 hew)
          · intro j2 w hj2 _ _
            omega
    · simp only [pickTarget, hz, Bool.false_eq_true, ite_false] at h
      rcases Option.map_eq_some'.1 h with ⟨⟨j, xj⟩, hj, heq⟩
      obtain ⟨rfl, rfl⟩ := Prod.mk.injEq .. ▸ (heq : (j + 1, xj) = (i, xv))
      rcases ih j xj hj with ⟨w0, hget, he, hx, hmin, hfirst⟩
      refine ⟨w0, by simpa using hget, he, hx, ?_, ?_⟩
      · intro w hw hew
        rcases List.mem_cons.1 hw with rfl | hw2
        · exact absurd hew hz
        · exact hmin w hw2 hew
      · intro j2 w hj2 hget2 hew
        cases j2 with
        | zero =>
          simp only [List.getElem?_cons_zero, Option.some.injEq] at hget2
          subst hget2
          exact absurd hew hz
        | succ j3 =>
          simp only [List.getElem?_cons_succ] at hget2
          exact hfirst j3 w (by omega) hget2 hew

/-- C7: the per-plant action of a tick. A sunflower whose regen interval has
elapsed credits the sun by exactly its yield and resets its timer, otherwise does
nothing; a peashooter whose shoot interval has elapsed does nothing (timer not
reset) when no zombie in its floored row lies strictly ahead, and otherwise
damages precisely the picked target — an eligible zombie of strictly minimal x,
the earliest in array order among ties — and resets its timer. -/
theorem plantTickAction (now sun : Int) (zs : List Zombie) (p : Plant) :
    (p.type = "SUNFLOWER" →
       (now - p.lastSunGeneration ≥ SUNFLOWER.sunGenerationInterval →
          plantStep now (sun, zs) p =
            ((sun + SUNFLOWER.sunAmount, zs), { p with lastSunGeneration := now })) ∧
       (now - p.lastSunGeneration < SUNFLOWER.sunGenerationInterval →
          plantStep now (sun, zs) p = ((sun, zs), p))) ∧
    (p.type = "PEASHOOTER" →
       (now - p.lastShot < PEASHOOTER.shootInterval →
          plantStep now (sun, zs) p = ((sun, zs), p)) ∧
       (now - p.lastShot ≥ PEASHOOTER.shootInterval →
          ((∀ z ∈ zs, eligTarget p.x p.y.floor z = false) →
             plantStep now (sun, zs) p = ((sun, zs), p)) ∧
          (∀ i xv, pickTarget p.x p.y.floor zs = some (i, xv) →
             (∃ z, zs[i]? = some z ∧ eligTarget p.x p.y.floor z = true ∧ z.x = xv ∧
                (∀ w ∈ zs, eligTarget p.x p.y.floor w = true → xv ≤ w.x) ∧
                (∀ j w, j < i → zs[j]? = some w →
                   eligTarget p.x p.y.floor w = true → xv < w.x)) ∧
             plantStep now (sun, zs) p =
               ((sun, modifyIdx
                   (fun z => { z with health := z.health - PEASHOOTER.damage }) zs i),
                { p with lastShot := now })))) := by
  have hsp : p.type = "SUNFLOWER" → p.type ≠ "PEASHOOTER" := by
    intro h
    rw [h]
    decide
  constructor
  · intro hty
    constructor
    · intro hel
      simp [plantStep, hty, hel]
    · intro hel
      simp [plantStep, hty, not_le.2 hel]
  · intro hty
    have hns : p.type ≠ "SUNFLOWER" := by
      rw [hty]
      decide
    constructor
    · intro hel
      simp [plantStep, hty, hns, not_le.2 hel]
    · intro hel
      constructor
      · intro hnone
        have hpt : pickTarget p.x p.y.floor zs = none :=
          (pickTarget_none_iff _ _ _).2 hnone
        simp [plantStep, hty, hns, hel, hpt]
      · intro i xv hpt
        refine ⟨pickTarget_some_spec _ _ _ _ _ hpt, ?_⟩
        simp [plantStep, hty, hns, hel, hpt]

theorem activate_active (c : Ambulance) (h : c.active = true) :
    ({ c with active := true } : Ambulance) = c := by
  obtain ⟨r, x, a, u, st⟩ := c
  simp_all

theorem zombieStep_house (now : Int) (delta : Rat) (acc : ZAcc) (z : Zombie)
    (hcol : findIdxP (collides z) acc.plants = none)
    (hcross : z.x - z.speed * delta ≤ 0) :
    ((∃ a ∈ acc.ambulances, a.row = z.y.floor ∧ a.used = false) →
       (zombieStep now delta acc z).1.status = acc.status ∧
       (zombieStep now delta acc z).1.score = acc.score ∧
       ∃ (j : Nat) (b : Ambulance), acc.ambulances[j]? = some b ∧
         b.row = z.y.floor ∧ b.used = false ∧
         (zombieStep now delta acc z).1.ambulances[j]? =
           some { b with active := true }) ∧
    ((∀ a ∈ acc.ambulances, a.row = z.y.floor → a.used = true) →
       (zombieStep now delta acc z).1.status = "ended" ∧
       (zombieStep now delta acc z).1.score.zombies = acc.score.zombies + 1 ∧
       (zombieStep now delta acc z).1.score.plants = acc.score.plants) := by
  constructor
  · rintro ⟨b0, hb0mem, hb0row, hb0used⟩
    cases hf : findIdxP (fun a => a.row == z.y.floor && !a.used) acc.ambulances with
    | none =>
      exfalso
      have := findIdxP_none_iff.1 hf b0 hb0mem
      simp [hb0row, hb0used] at this
    | some j =>
      rcases findIdxP_some_spec hf with ⟨b, hbget, hbp⟩
      simp only [Bool.and_eq_true, beq_iff_eq, Bool.not_eq_true'] at hbp
      have hzs : (zombieStep now delta acc z).1 =
          ⟨acc.plants, modifyIdx (fun a => { a with active := true }) acc.ambulances j,
           acc.status, acc.score⟩ := by
        simp only [zombieStep, hcol]
        rw [if_pos hcross]
        simp only [hf]
      refine ⟨by rw [hzs], by rw [hzs], j, b, hbget, hbp.1, hbp.2, ?_⟩
      rw [hzs]
      show (modifyIdx _ acc.ambulances j)[j]? = _
      rw [modifyIdx_getElem_eq, hbget]
      rfl
  · intro hall
    have hf : findIdxP (fun a => a.row == z.y.floor && !a.used) acc.ambulances = none := by
      refine findIdxP_none_iff.2 ?_
      intro a ha
      by_cases hrow : a.row = z.y.floor
      · simp [hrow, hall a ha hrow]
      · simp [hrow]
    have hzs : (zombieStep now delta acc z).1 =
        ⟨acc.plants, acc.ambulances, "ended",
         ⟨acc.score.plants, acc.score.zombies + 1⟩⟩ := by
      simp only [zombieStep, hcol]
      rw [if_pos hcross]
      simp only [hf]
    exact ⟨by rw [hzs], by rw [hzs], by rw [hzs]⟩

theorem zombieStep_cases (now : Int) (delta : Rat) (acc : ZAcc) (z : Zombie) :
    (crossesNoVehicle delta acc z = true →
       (zombieStep now delta acc z).1.status = "ended" ∧
       (zombieStep now delta acc z).1.score.zombies = acc.score.zombies + 1 ∧
       (zombieStep now delta acc z).1.score.plants = acc.score.plants) ∧
    (crossesNoVehicle delta acc z = false →
       (zombieStep now delta acc z).1.status = acc.status ∧
       (zombieStep now delta acc z).1.score = acc.score) := by
  cases hcol : findIdxP (collides z) acc.plants with
  | some k =>
    constructor
    · intro h
      simp [crossesNoVehicle, hcol] at h
    · intro _
      simp only [zombieStep, hcol]
      split_ifs <;> simp
  | none =>
    by_cases hx : z.x - z.speed * delta ≤ 0
    · cases hf : findIdxP (fun a => a.row == z.y.floor && !a.used) acc.ambulances with
      | some j =>
        constructor
        · intro h
          simp [crossesNoVehicle, hcol, hx, hf] at h
        · intro _
          simp only [zombieStep, hcol]
          rw [if_pos hx]
          simp [hf]
      | none =>
        constructor
        · intro _
          simp only [zombieStep, hcol]
          rw [if_pos hx]
          simp [hf]
        · intro h
          simp [crossesNoVehicle, hcol, hx, hf] at h
    · constructor
      · intro h
        simp [crossesNoVehicle, hcol, hx] at h
      · intro _
        simp only [zombieStep, hcol]
        rw [if_neg hx]
        simp

theorem zombiePhase_score_count (now : Int) (delta : Rat) (acc : ZAcc)
    (zs : List Zombie) :
    (zombiePhase now delta acc zs).1.score.zombies =
      acc.score.zombies + (countCrossNoVehicle now delta acc zs : Int) ∧
    (zombiePhase now delta acc zs).1.score.plants = acc.score.plants ∧
    (zombiePhase now delta acc zs).1.status =
      (if countCrossNoVehicle now delta acc zs = 0 then acc.status else "ended") := by
  induction zs generalizing acc with
  | nil => simp [zombiePhase, countCrossNoVehicle]
  | cons z rest ih =>
    have hcase := zombieStep_cases now delta acc z
    have ihr := ih (zombieStep now delta acc z).1
    by_cases hcv : crossesNoVehicle delta acc z
    · rcases hcase.1 hcv with ⟨hst, hzom, hpl⟩
      have hcnt : countCrossNoVehicle now delta acc (z :: rest) =
          1 + countCrossNoVehicle now delta (zombieStep now delta acc z).1 rest := by
        simp [countCrossNoVehicle, hcv]
      simp only [zombiePhase]
      rw [hcnt]
      refine ⟨?_, ?_, ?_⟩
      · rw [ihr.1, hzom]
        push_cast
        ring
      · rw [ihr.2.1, hpl]
      · rw [ihr.2.2, hst, ite_self, if_neg (by omega)]
    · rcases hcase.2 (by simpa using hcv) with ⟨hst, hsc⟩
      have hcnt : countCrossNoVehicle now delta acc (z :: rest) =
          countCrossNoVehicle now delta (zombieStep now delta acc z).1 rest := by
        simp [countCrossNoVehicle, hcv]
      simp only [zombiePhase]
      rw [hcnt]
      refine ⟨?_, ?_, ?_⟩
      · rw [ihr.1, show (zombieStep now delta acc z).1.score = acc.score from hsc]
      · rw [ihr.2.1, show (zombieStep now delta acc z).1.score = acc.score from hsc]
      · rw [ihr.2.2, hst]

theorem zombieStep_active_stable (now : Int) (delta : Rat) (acc : ZAcc) (z : Zombie)
    (j : Nat) (c : Ambulance) (hj : acc.ambulances[j]? = some c)
    (hc : c.active = true) :
    (zombieStep now delta acc z).1.ambulances[j]? = some c := by
  cases hcol : findIdxP (collides z) acc.plants with
  | some k =>
    simp only [zombieStep, hcol]
    split_ifs <;> simp [hj]
  | none =>
    simp only [zombieStep, hcol]
    split_ifs with hx
    · cases hf : findIdxP (fun a => a.row == z.y.floor && !a.used) acc.ambulances with
      | some k =>
        by_cases hkj : j = k
        · subst hkj
          show (modifyIdx _ acc.ambulances j)[j]? = _
          rw [modifyIdx_getElem_eq, hj]
          simp [activate_active c hc]
        · show (modifyIdx _ acc.ambulances k)[j]? = _
          rw [modifyIdx_getElem_ne _ _ _ _ hkj]
          exact hj
      | none => simpa using hj
    · simpa using hj

theorem zombiePhase_active_stable (now : Int) (delta : Rat) (acc : ZAcc)
    (zs : List Zombie) (j : Nat) (c : Ambulance)
    (hj : acc.ambulances[j]? = some c) (hc : c.active = true) :
    (zombiePhase now delta acc zs).1.ambulances[j]? = some c := by
  induction zs generalizing acc with
  | nil => simpa [zombiePhase] using hj
  | cons z rest ih =>
    simp only [zombiePhase]
    exact ih _ (zombieStep_active_stable now delta acc z j c hj hc)

theorem waveStep_not_abort (g : Game) (now : Int)
    (h : (waveStep g now).2 = false) :
    (waveStep g now).1.score = g.score ∧ (waveStep g now).1.status = g.status := by
  unfold waveStep endGame at h ⊢
  split_ifs at h ⊢ <;> try simp_all
  all_goals split_ifs at h ⊢
  all_goals simp_all

theorem tick_house (g : Game) (now : Int)
    (hws2 : (waveStep { g with lastUpdate := now } now).2 = false) :
    (updateGameState g now).score.zombies =
      g.score.zombies + (tickCrossCount g now : Int) ∧
    (updateGameState g now).score.plants = g.score.plants ∧
    (updateGameState g now).status =
      (if tickCrossCount g now = 0 then g.status else "ended") ∧
    (updateGameState g now).ambulances =
      (zombiePhase now (tickDelta g now) (tickAcc0 g now)
        (tickZombies0 g now)).1.ambulances := by
  have hkeep := waveStep_not_abort { g with lastUpdate := now } now hws2
  have hup : updateGameState g now =
      tickRest (waveStep { g with lastUpdate := now } now).1 now (tickDelta g now) := by
    simp only [updateGameState, hws2, Bool.false_eq_true, if_false]
    rfl
  have hzp := zombiePhase_score_count now (tickDelta g now) (tickAcc0 g now)
    (tickZombies0 g now)
  refine ⟨?_, ?_, ?_, ?_⟩
  · rw [hup]
    show (zombiePhase now (tickDelta g now) (tickAcc0 g now)
      (tickZombies0 g now)).1.score.zombies = _
    rw [hzp.1,
      show (tickAcc0 g now).score = (waveStep { g with lastUpdate := now } now).1.score
        from rfl,
      hkeep.1]
    rfl
  · rw [hup]
    show (zombiePhase now (tickDelta g now) (tickAcc0 g now)
      (tickZombies0 g now)).1.score.plants = _
    rw [hzp.2.1,
      show (tickAcc0 g now).score = (waveStep { g with lastUpdate := now } now).1.score
        from rfl,
      hkeep.1]
  · rw [hup]
    show (zombiePhase now (tickDelta g now) (tickAcc0 g now)
      (tickZombies0 g now)).1.status = _
    rw [hzp.2.2,
      show (tickAcc0 g now).status = (waveStep { g with lastUpdate := now } now).1.status
        from rfl,
      hkeep.2]
    rfl
  · rw [hup]
    rfl

/-- C1 (amended): during any tick, for every zombie that crosses `x ≤ 0` at its
processing moment while not engaged with a plant: if an unused rescue vehicle
exists for its floored row, the loop body activates the first such vehicle and
leaves status and score unchanged (the session continues), and an activated
vehicle entry then survives the rest of the zombie loop; if none exists, the
loop body ends the session with a zombie victory.  Over the whole per-zombie
loop the zombies score rises by exactly one per vehicle-less crossing zombie and
the status becomes `ended` exactly when at least one exists; a full tick that the
wave block does not abort realises that count on the session's score and status
(its vehicles being exactly the zombie loop's output), and no further tick
executes on an ended session.  The original "increments by exactly 1" is per
crossing zombie, not per tick (see the counterexample). -/
theorem zombieHouseCrossing :
    (∀ (now : Int) (delta : Rat) (acc : ZAcc) (z : Zombie),
       findIdxP (collides z) acc.plants = none →
       z.x - z.speed * delta ≤ 0 →
       ((∃ a ∈ acc.ambulances, a.row = z.y.floor ∧ a.used = false) →
          (zombieStep now delta acc z).1.status = acc.status ∧
          (zombieStep now delta acc z).1.score = acc.score ∧
          ∃ (j : Nat) (b : Ambulance), acc.ambulances[j]? = some b ∧
            b.row = z.y.floor ∧ b.used = false ∧
            (zombieStep now delta acc z).1.ambulances[j]? =
              some { b with active := true }) ∧
       ((∀ a ∈ acc.ambulances, a.row = z.y.floor → a.used = true) →
          (zombieStep now delta acc z).1.status = "ended" ∧
          (zombieStep now delta acc z).1.score.zombies = acc.score.zombies + 1 ∧
          (zombieStep now delta acc z).1.score.plants = acc.score.plants)) ∧
    (∀ (now : Int) (delta : Rat) (acc : ZAcc) (zs : List Zombie),
       (zombiePhase now delta acc zs).1.score.zombies =
         acc.score.zombies + (countCrossNoVehicle now delta acc zs : Int) ∧
       (zombiePhase now delta acc zs).1.score.plants = acc.score.plants ∧
       (zombiePhase now delta acc zs).1.status =
         (if countCrossNoVehicle now delta acc zs = 0 then acc.status else "ended")) ∧
    (∀ (now : Int) (delta : Rat) (acc : ZAcc) (zs : List Zombie) (j : Nat)
       (c : Ambulance), acc.ambulances[j]? = some c → c.active = true →
       (zombiePhase now delta acc zs).1.ambulances[j]? = some c) ∧
    (∀ (g : Game) (now : Int),
       (waveStep { g with lastUpdate := now } now).2 = false →
       (updateGameState g now).score.zombies =
         g.score.zombies + (tickCrossCount g now : Int) ∧
       (updateGameState g now).score.plants = g.score.plants ∧
       (updateGameState g now).status =
         (if tickCrossCount g now = 0 then g.status else "ended") ∧
       (updateGameState g now).ambulances =
         (zombiePhase now (tickDelta g now) (tickAcc0 g now)
           (tickZombies0 g now)).1.ambulances) ∧
    (∀ (g2 : Game) (now2 : Int), g2.status = "ended" → loopStep g2 now2 = g2) :=
  ⟨zombieStep_house, zombiePhase_score_count, zombiePhase_active_stable,
   tick_house, fun g2 now2 h2 => by simp [loopStep, h2]⟩

/-- C1 (counterexample): two zombies cross `x ≤ 0` in one tick of `gC1` while
every rescue vehicle is used; `endGame` runs once per zombie because the `return`
in the source only exits the `forEach` callback, so the zombies score rises by 2
in a single tick — refuting "increments by exactly 1". -/
theorem zombieHouseCrossing_counterexample :
    gC1.status = "playing" ∧ gC1.score.zombies = 0 ∧
    (updateGameState gC1 1000).status = "ended" ∧
    (updateGameState gC1 1000).score.zombies = 2 :=
  ⟨rfl, rfl, by decide, by decide⟩

/-- C1 witness: both branches exercised concretely — the two-crosser tick of
`gC1` realises the count on score and status, and the activation branch fires
on the accumulator `accW1` with the crossing zombie `zW1`. -/
theorem zombieHouseCrossing_witness :
    (waveStep { gC1 with lastUpdate := 1000 } 1000).2 = false ∧
    tickCrossCount gC1 1000 = 2 ∧
    (updateGameState gC1 1000).score.zombies =
      gC1.score.zombies + (tickCrossCount gC1 1000 : Int) ∧
    (updateGameState gC1 1000).status = "ended" ∧
    (∃ a ∈ accW1.ambulances, a.row = zW1.y.floor ∧ a.used = false) ∧
    (zombieStep 1000 1 accW1 zW1).1.status = accW1.status ∧
    (zombieStep 1000 1 accW1 zW1).1.score = accW1.score := by
  have h3 := zombieHouseCrossing.2.2.2.1 gC1 1000 (by decide)
  have h1 := (zombieHouseCrossing.1 1000 1 accW1 zW1 (by decide) (by decide)).1
    (by decide)
  refine ⟨by decide, by decide, h3.1, ?_, by decide, h1.1, h1.2.1⟩
  rw [h3.2.2.1, if_neg (by decide)]

/-- C2 witness: the re-entry branch evaluated on a fresh game at `now = 20000`. -/
theorem waveBreakTransition_witness :
    (mkGame 0).waveStatus = "break" ∧
    (updateGameState (mkGame 0) 20000).currentWave = (mkGame 0).currentWave + 1 ∧
    (updateGameState (mkGame 0) 20000).waveStatus = "active" ∧
    (updateGameState (mkGame 0) 20000).waveStartTime = 20000 := by
  have h := (waveBreakTransition (mkGame 0) 20000 rfl (by decide)).2 (by decide)
  exact ⟨rfl, h.1, h.2.2.1, h.2.2.2⟩

/-- C3 witness: an accepted sunflower placement on `gPlay`. -/
theorem place_atomic_witness :
    (placePlant gPlay "SUNFLOWER" (1/2) (3/2) 7).1 = .ok ∧
    (∃ pt, PLANT_TYPES "SUNFLOWER" = some pt ∧
      (placePlant gPlay "SUNFLOWER" (1/2) (3/2) 7).2 =
        { gPlay with
            sun := gPlay.sun - pt.cost,
            plants := gPlay.plants ++ [⟨"SUNFLOWER", 1/2, 3/2, pt.health, 7, 7⟩] }) := by
  refine ⟨by decide, ?_⟩
  exact (place_atomic gPlay "SUNFLOWER" none (1/2) (3/2) 0 7 0).1 (by decide)

/-- C4 witness: the invariant carried through a placement on `gPlay`. -/
theorem plantCellInvariant_witness :
    plantsNoOverlap gPlay.plants ∧
    plantsNoOverlap ((placePlant gPlay "SUNFLOWER" 1 1 5).2).plants := by
  have h0 : plantsNoOverlap gPlay.plants := List.Pairwise.nil
  exact ⟨h0, (plantCellInvariant gPlay h0).1 "SUNFLOWER" 1 1 5⟩

/-- C5 witness: the success branch evaluated on `gPlay`. -/
theorem placePlant_cases_witness :
    PLANT_TYPES "SUNFLOWER" = some SUNFLOWER ∧
    placePlant gPlay "SUNFLOWER" (1/2) (3/2) 7 =
      (.ok, { gPlay with
                sun := gPlay.sun - SUNFLOWER.cost,
                plants := gPlay.plants ++
                  [⟨"SUNFLOWER", 1/2, 3/2, SUNFLOWER.health, 7, 7⟩] }) := by
  refine ⟨rfl, ?_⟩
  exact (placePlant_cases gPlay "SUNFLOWER" SUNFLOWER (1/2) (3/2) 7 rfl).2.2.2.2.1
    rfl (by decide) (by decide) (by decide)

/-- C6 witness: the success branch evaluated on `gPlay`. -/
theorem placeZombie_cases_witness :
    ZOMBIE_TYPES "CONE" = some CONE ∧
    placeZombie gPlay (some "CONE") 2 7 =
      (.ok, { gPlay with
                wavePoints := gPlay.wavePoints - CONE.cost,
                zombies := gPlay.zombies ++ [⟨"CONE", 8, 2, CONE.health, CONE.speed, 7⟩] }) := by
  refine ⟨rfl, ?_⟩
  exact (placeZombie_cases gPlay "CONE" CONE 2 7 rfl).2.2.2.1 rfl rfl (by decide) (by decide)

/-- C7 witness: the peashooter hits the closer of two zombies in its row. -/
theorem plantTickAction_witness :
    pW7.type = "PEASHOOTER" ∧ pickTarget pW7.x pW7.y.floor zsW7 = some (1, 4) ∧
    plantStep 3000 (10, zsW7) pW7 =
      ((10, modifyIdx (fun z => { z with health := z.health - PEASHOOTER.damage }) zsW7 1),
       { pW7 with lastShot := 3000 }) := by
  refine ⟨rfl, by decide, ?_⟩
  exact ((((plantTickAction 3000 10 zsW7 pW7).2 rfl).2 (by decide)).2 1 4 (by decide)).2

/-- C8 witness: the used vehicle `aW8` survives a tick of `gW8` unchanged. -/
theorem usedVehicleInert_witness :
    gW8.ambulances[0]? = some aW8 ∧ aW8.used = true ∧
    (updateGameState gW8 50).ambulances[0]? = some aW8 := by
  refine ⟨by decide, rfl, ?_⟩
  exact usedVehicleInert.2.2.2 gW8 50 0 aW8 (by decide) rfl

/-- C9 witness: the BASIC default and an unknown plant kind on `gPlay`. -/
theorem zombieDefault_unknownSilent_witness :
    placeZombie gPlay none 2 9 = placeZombie gPlay (some "BASIC") 2 9 ∧
    gPlay.status = "playing" ∧
    placePlant gPlay "CACTUS" 1 1 9 = (.unknownKind, gPlay) ∧
    plantErrorEmitted .unknownKind = false := by
  refine ⟨zombieDefault_unknownSilent.1 gPlay 2 9, rfl, ?_, ?_⟩
  · exact (zombieDefault_unknownSilent.2.2.2.1 gPlay "CACTUS" 1 1 9 rfl rfl).1
  · exact (zombieDefault_unknownSilent.2.2.2.1 gPlay "CACTUS" 1 1 9 rfl rfl).2

/-- C10 witness: a plant accepted and stored at the fractional spot (1/3, 7/5). -/
theorem placePlant_fractional_witness :
    (placePlant gPlay "SUNFLOWER" (1/3) (7/5) 9).1 = .ok ∧
    (placePlant gPlay "SUNFLOWER" (1/3) (7/5) 9).2.plants =
      gPlay.plants ++ [⟨"SUNFLOWER", 1/3, 7/5, SUNFLOWER.health, 9, 9⟩] := by
  have h := placePlant_fractional gPlay "SUNFLOWER" SUNFLOWER (1/3) (7/5) 9 rfl rfl
    (by decide) (by decide) (by decide) (by decide) (by decide) (by decide)
  exact ⟨h.1, h.2.1⟩

end ClaimVerification

end PvZ
